import Mathlib

/-!
Verification of the gocrawler crawl-orchestration engine against its
natural-language specification.

Each Go function relevant to the checked claims is shallowly embedded as a
Lean definition: JSON values become an inductive type, maps become
association lists, stateful service methods become explicit state-passing
functions, `context.Context` cancellation becomes boolean oracles indexed by
checkpoint, and loops that depend on external responses take the response
stream as an oracle function plus a fuel argument.
-/

namespace GoCrawler

/-! ## JSON model

Embeds Go's dynamically-typed JSON values.  Objects are association lists
of key/value pairs (Go map iteration order is not observable through the
per-key properties proved below).  The model keeps Go's dynamic-type
distinction between an untyped object (`map[string]interface{}`, the
`obj` constructor) and a string-typed object literal (`map[string]string`,
the `strMap` constructor): the source's merge recurses only into the
former, because its type assertion `existing.(map[string]interface{})`
fails on a `map[string]string` value even though both serialize as JSON
objects.  The default payload template contains `map[string]string` leaves
(the `sort` entries and the `aggs.*.terms.order` fields); JSON-decoded
override values are always untyped (`obj`).
-/

inductive Json where
  | null : Json
  | bool (b : Bool) : Json
  | num (n : Int) : Json
  | str (s : String) : Json
  | arr (xs : List Json) : Json
  | obj (fields : List (String × Json)) : Json
  | strMap (fields : List (String × String)) : Json
deriving Repr

/-- Lookup of a key in an object's field list (first occurrence), the
reading counterpart of Go's `target[key]`. -/
def lookupObj : List (String × Json) → String → Option Json
  | [], _ => none
  | (k', v) :: rest, k => if k' = k then some v else lookupObj rest k

/-- Write of a key in an object's field list, the writing counterpart of
Go's `target[key] = value`: replaces the first binding of the key, or
appends a new binding when the key is absent. -/
def setKey : List (String × Json) → String → Json → List (String × Json)
  | [], k, v => [(k, v)]
  | (k', v') :: rest, k, v =>
    if k' = k then (k, v) :: rest else (k', v') :: setKey rest k v

/-! ## Payload merge (src/internal/crawler/embroidery_payload.go)

`mergeValue`/`mergeObj` embed `mergeEmbroideryOverrides`: for each override
entry, when the override value type-asserts as `map[string]interface{}`
(`obj`) and the existing value under the same key also type-asserts as
`map[string]interface{}`, merge recursively; otherwise the override value
replaces the existing value (Go stores `value` into `target[key]`, also
when the key is absent from the target).  The catch-all branch of
`mergeValue` covers every failed type assertion — in particular an
existing `map[string]string` leaf (`strMap`) is replaced outright even by
an override that is a JSON object.
-/

mutual

def mergeValue (t : Json) (o : Json) : Json :=
  match t, o with
  | .obj tm, .obj om => .obj (mergeObj tm om)
  | _, o' => o'

def mergeObj (t : List (String × Json)) : List (String × Json) → List (String × Json)
  | [] => t
  | (k, v) :: rest =>
    let t' :=
      match lookupObj t k with
      | some existing => setKey t k (mergeValue existing v)
      | none => setKey t k v
    mergeObj t' rest

end

/-- Embeds `defaultEmbroideryPayload`, the fixed Elasticsearch query
template (sort order, source excludes, boolean filter clauses, aggregation
buckets, pagination fields).  The `sort` entries are Go
`[]map[string]string` elements and each aggregation bucket's `order` field
is a Go `map[string]string`, so both are encoded with `strMap`; every
other composite value in the template is `map[string]interface{}` /
`[]interface{}`-shaped. -/
def defaultEmbroideryPayload (frm size : Int) : List (String × Json) :=
  [ ("track_total_hits", .bool true),
    ("sort", .arr
      [ .strMap [("saleRank", "desc")],
        .strMap [("rating", "desc")] ]),
    ("_source", .obj
      [ ("excludes", .arr [.str "*.productTabContent", .str "*.mainFeatures"]) ]),
    ("query", .obj
      [ ("bool", .obj
        [ ("should", .arr []),
          ("must", .arr
            [ .obj [("term", .obj [("definitionName", .str "StockDesign")])],
              .obj [("term", .obj [("inStock", .bool true)])],
              .obj [("range", .obj [("listPrice", .obj [("gt", .num 0)])])] ]),
          ("must_not", .arr
            [ .obj [("term", .obj [("definitionName", .str "PrintArt")])],
              .obj [("term", .obj [("definitionName", .str "SVG")])] ]) ]) ]),
    ("from", .num frm),
    ("size", .num size),
    ("aggs", .obj
      [ ("Brands", .obj
          [ ("terms", .obj
            [ ("field", .str "brand.raw"),
              ("order", .strMap [("_count", "desc")]),
              ("size", .num 1000) ]) ]),
        ("catalog", .obj
          [ ("terms", .obj
            [ ("field", .str "catalog.raw"),
              ("order", .strMap [("_count", "desc")]),
              ("size", .num 1000) ]) ]),
        ("Artists", .obj
          [ ("terms", .obj
            [ ("field", .str "artist.raw"),
              ("order", .strMap [("_count", "desc")]),
              ("size", .num 1000) ]) ]),
        ("Categories", .obj
          [ ("terms", .obj
            [ ("field", .str "categoriesList.keyword"),
              ("order", .strMap [("_count", "desc")]),
              ("size", .num 1000) ]) ]) ]) ]

/-- Embeds `BuildEmbroideryPayload`: build the default template, deep-merge
the overrides into it when non-empty, then unconditionally overwrite the
pagination fields with the caller-supplied values. -/
def BuildEmbroideryPayload (frm size : Int) (overrides : List (String × Json)) :
    List (String × Json) :=
  let payload := defaultEmbroideryPayload frm size
  let payload := if overrides.length > 0 then mergeObj payload overrides else payload
  let payload := setKey payload "from" (.num frm)
  setKey payload "size" (.num size)

/-! ## Retry executor (src/internal/utils/retry.go)

Durations are integers (Go `time.Duration` nanoseconds).  The context is
modelled by two boolean oracles: `db a` is whether `ctx.Done()` is observed
at the cancellation check before attempt `a`, and `dd a` is whether the
`select` during the backoff sleep after attempt `a` observes `ctx.Done()`
before the timer fires.  Attempt outcomes come from the oracle `res`:
`res a = none` means the `a`-th invocation of `fn` succeeds, `res a = some e`
means it fails with error code `e`.  The float64 backoff arithmetic of the
source is modelled exactly over the integers (the source multiplies the
constant `delay` by integral powers of the integral multiplier).
-/

structure RetryConfig where
  maxAttempts : Nat
  backoffMultiplier : Int
  initialDelay : Int
  maxDelay : Int
deriving Repr

inductive REvent where
  | call (a : Nat) (ok : Bool) : REvent
  | sleep (a : Nat) (d : Int) : REvent
deriving Repr, DecidableEq

inductive RetryErr where
  | ctxErr : RetryErr
  | fnErr (e : Nat) : RetryErr
deriving Repr, DecidableEq

/-- Backoff duration computed by the source after attempt `a` fails:
`nextDelay := delay * multiplier^(attempt-1)` capped at `maxDelay`, where
`delay` stays `initialDelay` throughout the loop. -/
def delayOf (cfg : RetryConfig) (a : Nat) : Int :=
  min (cfg.initialDelay * cfg.backoffMultiplier ^ (a - 1)) cfg.maxDelay

/-- Embeds the `for attempt := 1; attempt <= MaxAttempts; attempt++` loop of
`Retry`.  Returns the event trace (invocations and sleeps, in order) and the
returned value (`none` for a `nil` error).  `fuel` only bounds the recursion
and is chosen large enough at the top level that it never runs out. -/
def retryLoop (cfg : RetryConfig) (db dd : Nat → Bool) (res : Nat → Option Nat) :
    Nat → Option Nat → Nat → List REvent × Option RetryErr
  | _, lastErr, 0 => ([], lastErr.map RetryErr.fnErr)
  | a, lastErr, fuel + 1 =>
    if cfg.maxAttempts < a then
      ([], lastErr.map RetryErr.fnErr)
    else if db a then
      ([], some .ctxErr)
    else
      match res a with
      | none => ([.call a true], none)
      | some e =>
        if a < cfg.maxAttempts then
          if dd a then
            ([.call a false], some .ctxErr)
          else
            let rest := retryLoop cfg db dd res (a + 1) (some e) fuel
            (.call a false :: .sleep a (delayOf cfg a) :: rest.1, rest.2)
        else
          let rest := retryLoop cfg db dd res (a + 1) (some e) fuel
          (.call a false :: rest.1, rest.2)

/-- Embeds `Retry`: run the attempt loop from attempt 1 with no last error. -/
def Retry (cfg : RetryConfig) (db dd : Nat → Bool) (res : Nat → Option Nat) :
    List REvent × Option RetryErr :=
  retryLoop cfg db dd res 1 none (cfg.maxAttempts + 1)

/-- Invocation count in a retry trace. -/
def countCalls (tr : List REvent) : Nat :=
  (tr.filter fun e => match e with | .call _ _ => true | _ => false).length

/-- Durations of the sleeps that occur immediately before attempt `n`
(the source sleeps after a failed attempt `n - 1`). -/
def sleepsBefore (tr : List REvent) (n : Nat) : List Int :=
  tr.filterMap fun e =>
    match e with
    | .sleep a d => if a + 1 = n then some d else none
    | _ => none

/-- Trace fragment produced by `n` consecutive failing attempts starting at
attempt `a`, each followed by its backoff sleep. -/
def failRun (cfg : RetryConfig) (a n : Nat) : List REvent :=
  (List.range' a n).flatMap fun i => [.call i false, .sleep i (delayOf cfg i)]

/-! ## Proxy health persistence (src/internal/storage/repository.go,
src/internal/proxy/health_checker.go)

A proxy row keeps the claim-relevant persisted columns.  The SQL of
`Repository.UpdateProxyHealth` updates one row by id; its per-row effect is
embedded as a pure function on the row.
-/

structure ProxyRow where
  id : Int
  isActive : Bool
  failureCount : Int
deriving Repr, DecidableEq

/-- Embeds the row effect of `Repository.UpdateProxyHealth`: the healthy
branch sets `is_active = true, failure_count = 0`; the unhealthy branch sets
`is_active = false, failure_count = failure_count + 1` (both branches also
touch timestamps, which are not modelled). -/
def UpdateProxyHealth (p : ProxyRow) (isHealthy : Bool) : ProxyRow :=
  if isHealthy then
    { p with isActive := true, failureCount := 0 }
  else
    { p with isActive := false, failureCount := p.failureCount + 1 }

/-- Embeds `HealthChecker.CheckAllProxies` over a batch of proxies: for each
proxy, probe it (`health p.id = none` models a `CheckProxy` error, which the
source logs and skips with `continue`; `some b` is the healthy/unhealthy
classification) and persist the result via `UpdateProxyHealth`.  The
threshold comparison `proxy.FailureCount+1 >= MaxFailures` in the source
only emits a warning log and changes no state, so it contributes nothing
here. -/
def CheckAllProxies (proxies : List ProxyRow) (health : Int → Option Bool) :
    List ProxyRow :=
  proxies.map fun p =>
    match health p.id with
    | none => p
    | some b => UpdateProxyHealth p b

/-! ## Task lifecycle service (src/unnamed/part_002, `CrawlerService`)

The service state carries the persisted task statuses (a partial map, since
a SQL `UPDATE` on an absent row changes nothing), the active-task
cancellation-handle map, the set of task ids whose execution context has
been cancelled, the active periodic monitors, and the executions handed
off so far.
-/

inductive TaskStatus where
  | pending | running | paused | completed | failed | stopped
deriving Repr, DecidableEq

structure ServiceState where
  tasks : Int → Option TaskStatus
  activeTasks : List Int
  canceledCtx : List Int
  monitors : List Int
  spawned : List Int
  workerPoolStarted : Bool

/-- Embeds the row effect of `Repository.UpdateTaskStatus`: set the status
of the task with the given id, when such a row exists. -/
def repoUpdateTaskStatus (tasks : Int → Option TaskStatus) (id : Int)
    (st : TaskStatus) : Int → Option TaskStatus :=
  fun j => if j = id then (tasks j).map fun _ => st else tasks j

inductive StartErr where
  | getTaskFailed
  | alreadyRunning
deriving Repr, DecidableEq

/-- Embeds the synchronous effects of `CrawlerService.StartTask`, in source
order: read the task (missing task models a `GetTask` error); reject when
its persisted status is `running`; otherwise persist status `running`,
register the cancellation handle in `activeTasks`, start the worker pool,
and spawn the detached execution (`spawned` records the handoff). -/
def StartTask (s : ServiceState) (id : Int) : ServiceState × Option StartErr :=
  match s.tasks id with
  | none => (s, some .getTaskFailed)
  | some st =>
    if st = .running then
      (s, some .alreadyRunning)
    else
      let s := { s with tasks := repoUpdateTaskStatus s.tasks id .running }
      let s := { s with activeTasks := id :: s.activeTasks }
      let s := { s with workerPoolStarted := true }
      let s := { s with spawned := id :: s.spawned }
      (s, none)

/-- Embeds `CrawlerService.StopTask`: invoke the cancellation handle when
one is registered (recorded in `canceledCtx`; the handle itself stays in the
map, the detached execution removes it when it returns), stop the periodic
monitor for the task, persist status `stopped`. -/
def StopTask (s : ServiceState) (id : Int) : ServiceState :=
  let s := if id ∈ s.activeTasks then { s with canceledCtx := id :: s.canceledCtx } else s
  let s := { s with monitors := s.monitors.erase id }
  { s with tasks := repoUpdateTaskStatus s.tasks id .stopped }

/-- Embeds `CrawlerService.PauseTask`, whose whole body is a single call to
`Repository.UpdateTaskStatus(ctx, taskID, TaskStatusPaused)`. -/
def PauseTask (s : ServiceState) (id : Int) : ServiceState :=
  { s with tasks := repoUpdateTaskStatus s.tasks id .paused }

/-! ## Resumable paginated crawl (src/unnamed/part_009,
`EmbroideryAPICrawler.CrawlAll`)

The upstream is an oracle from iteration number to page outcome: a
transport failure (`makeRequest` error: logged, short sleep, `continue`
without advancing the cursor), a malformed JSON body (logged, `continue`
without advancing), or a parsed page carrying the reported total and the
number of hits.  Context cancellation is a boolean oracle over checkpoints:
`done (2*i)` is the check at the top of iteration `i`, `done (2*i+1)`
covers the checks after the cursor advance (the explicit `select`, the rate
limiter wait and the jitter sleep of the source, collapsed into one
observation).  The trace records, in program order, the resume-cursor
persistence (the spawned `UpdateTaskConfig` write of `last_from`) and the
page request issued at the current cursor. -/

inductive PageResp where
  | fail : PageResp
  | badJson : PageResp
  | page (total : Int) (hitsCount : Nat) : PageResp
deriving Repr, DecidableEq

inductive CrawlEvent where
  | persistFrom (f : Int) : CrawlEvent
  | request (f : Int) : CrawlEvent
deriving Repr, DecidableEq

inductive CrawlOutcome where
  | canceled : CrawlOutcome
  | exhausted : CrawlOutcome
  | completed : CrawlOutcome
  | outOfFuel : CrawlOutcome
deriving Repr, DecidableEq

/-- Embeds the page loop of `CrawlAll`.  State per iteration: the cursor
`frm`, `totalAvail` (0 until learned from a response), `totalProc`.  In
source order: cancellation check; write `last_from = frm` into the task
config; issue the request; on a parsed page set the total when still 0,
stop on an empty page, advance the processed count, stop when all available
records are processed or the page was short, else advance the cursor by
`pageSize` and re-check cancellation before the next iteration. -/
def crawlLoop (pageSize : Nat) (resp : Nat → PageResp) (done : Nat → Bool) :
    Nat → Int → Int → Int → Nat → List CrawlEvent × CrawlOutcome
  | _, _, _, _, 0 => ([], .outOfFuel)
  | i, frm, totalAvail, totalProc, fuel + 1 =>
    if done (2 * i) then
      ([], .canceled)
    else
      let evs := [CrawlEvent.persistFrom frm, CrawlEvent.request frm]
      match resp i with
      | .fail =>
        let rest := crawlLoop pageSize resp done (i + 1) frm totalAvail totalProc fuel
        (evs ++ rest.1, rest.2)
      | .badJson =>
        let rest := crawlLoop pageSize resp done (i + 1) frm totalAvail totalProc fuel
        (evs ++ rest.1, rest.2)
      | .page total cnt =>
        let ta := if totalAvail = 0 then total else totalAvail
        if cnt = 0 then
          (evs, .exhausted)
        else
          let tp := totalProc + cnt
          if ta ≤ tp ∨ cnt < pageSize then
            (evs, .completed)
          else if done (2 * i + 1) then
            (evs, .canceled)
          else
            let rest := crawlLoop pageSize resp done (i + 1) (frm + pageSize) ta tp fuel
            (evs ++ rest.1, rest.2)

/-- Resume-cursor extraction from the parsed task configuration:
`taskConfig["last_from"].(float64)` succeeds exactly on a JSON number. -/
def parseLastFrom (cfg : Option (List (String × Json))) : Option Int :=
  match cfg with
  | none => none
  | some fields =>
    match lookupObj fields "last_from" with
    | some (.num n) => some n
    | _ => none

/-- Embeds `CrawlAll` up to the event trace: the cursor starts at the
persisted `last_from` (or 0), the configured page size defaults to 120 when
unset, `totalAvailable` starts at 0 and `totalProcessed` starts at the
resume cursor. -/
def CrawlAll (pageSizeCfg : Nat) (resp : Nat → PageResp) (done : Nat → Bool)
    (cfg : Option (List (String × Json))) (fuel : Nat) :
    List CrawlEvent × CrawlOutcome :=
  let frm := (parseLastFrom cfg).getD 0
  let pageSize := if pageSizeCfg = 0 then 120 else pageSizeCfg
  crawlLoop pageSize resp done 0 frm 0 frm fuel

/-! ## Periodic incremental monitor (src/unnamed/part_009,
`StartPeriodicMonitoring` / `checkForNewProducts`) -/

inductive MonitorAction where
  | requestFailed : MonitorAction
  | launchIncremental (frm : Int) : MonitorAction
  | noNewRecords (currentTotal : Int) : MonitorAction
deriving Repr, DecidableEq

/-- Embeds `checkForNewProducts` for one tick: fetch the current total with
a count-only request (`none` models any marshal/request/parse failure, each
of which logs and returns); when it exceeds the baseline `lastTotal`,
launch `IncrementalCrawl(ctx, task, int(lastTotal))`, else log that there
are no new records. -/
def checkForNewProducts (lastTotal : Int) (fetched : Option Int) : MonitorAction :=
  match fetched with
  | none => .requestFailed
  | some currentTotal =>
    if lastTotal < currentTotal then .launchIncremental lastTotal
    else .noNewRecords currentTotal

/-- Embeds the ticker loop of `StartPeriodicMonitoring` unrolled for `n`
ticks starting at tick `i`: every tick calls `checkForNewProducts` with the
same captured `lastTotal`; no iteration rebinds it. -/
def monitorLoop (lastTotal : Int) (fetched : Nat → Option Int) :
    Nat → Nat → List MonitorAction
  | _, 0 => []
  | i, n + 1 =>
    checkForNewProducts lastTotal (fetched i) :: monitorLoop lastTotal fetched (i + 1) n

/-! ## Proxy acquisition fallback (src/unnamed/part_009 `makeRequest`,
src/internal/crawler/api_crawler.go `APICrawler.Crawl`,
src/internal/proxy/manager.go) -/

inductive ClientKind where
  | direct : ClientKind
  | throughProxy (id : Int) : ClientKind
deriving Repr, DecidableEq

/-- Embeds `Manager.GetProxy`: `nil` without error when proxying is
disabled, otherwise the pool pick (`pool.GetProxy()`, which errors on an
empty pool). -/
def managerGetProxy (enabled : Bool) (pool : Except Unit ProxyRow) :
    Except Unit (Option ProxyRow) :=
  if ¬enabled then .ok none else pool.map some

/-- Embeds `ProxyPool.GetProxy`: error when the pool is empty, otherwise a
random element (the random index is the oracle `pick`). -/
def poolGetProxy (proxies : List ProxyRow) (pick : Nat) : Except Unit ProxyRow :=
  match proxies with
  | [] => .error ()
  | p :: rest => .ok ((p :: rest).getD (pick % (p :: rest).length) p)

/-- Embeds `Manager.GetHTTPClient`: a direct client for a `nil` proxy,
otherwise a client routed through the proxy (URL construction and dialer
failures for exotic proxy records are outside this model). -/
def GetHTTPClient (p : Option ProxyRow) : Except Unit ClientKind :=
  match p with
  | none => .ok .direct
  | some pr => .ok (.throughProxy pr.id)

/-- Embeds the proxy-acquisition prelude of
`EmbroideryAPICrawler.makeRequest`: when proxying is enabled, ask the
manager for a proxy and on error log a warning and keep `currentProxy` as
`nil`; then build the HTTP client for whatever proxy (or `nil`) resulted.
Only an error from `GetHTTPClient` propagates. -/
def makeRequestClient (enabled : Bool) (pool : Except Unit ProxyRow) :
    Except Unit ClientKind :=
  let currentProxy : Option ProxyRow :=
    if enabled then
      match managerGetProxy enabled pool with
      | .ok p => p
      | .error _ => none
    else none
  GetHTTPClient currentProxy

/-- Embeds the identical proxy-acquisition prelude of `APICrawler.Crawl`
(same statements, same fallback on a `GetProxy` error). -/
def apiCrawlerClient (enabled : Bool) (pool : Except Unit ProxyRow) :
    Except Unit ClientKind :=
  let currentProxy : Option ProxyRow :=
    if enabled then
      match managerGetProxy enabled pool with
      | .ok p => p
      | .error _ => none
    else none
  GetHTTPClient currentProxy

/-! ## Helper lemmas: object lookup, key writes and the deep merge -/

theorem lookupObj_setKey_self (t : List (String × Json)) (k : String) (v : Json) :
    lookupObj (setKey t k v) k = some v := by
  induction t with
  | nil => simp [setKey, lookupObj]
  | cons hd tl ih =>
    obtain ⟨k', v'⟩ := hd
    by_cases hk : k' = k
    · simp [setKey, hk, lookupObj]
    · simp [setKey, hk, lookupObj, ih]

theorem lookupObj_setKey_ne (t : List (String × Json)) (k k' : String) (v : Json)
    (h : k' ≠ k) : lookupObj (setKey t k' v) k = lookupObj t k := by
  induction t with
  | nil => simp [setKey, lookupObj, h]
  | cons hd tl ih =>
    obtain ⟨k₁, v₁⟩ := hd
    by_cases hk : k₁ = k'
    · simp [setKey, hk, lookupObj, h, fun hc : k₁ = k => h (hk ▸ hc)]
    · simp [setKey, hk, lookupObj, ih]

theorem lookupObj_mergeObj_not_mem (o : List (String × Json)) :
    ∀ (t : List (String × Json)) (k : String), k ∉ o.map Prod.fst →
      lookupObj (mergeObj t o) k = lookupObj t k := by
  induction o with
  | nil => intro t k _; simp [mergeObj]
  | cons hd tl ih =>
    intro t k hk
    obtain ⟨k₁, v₁⟩ := hd
    simp only [List.map_cons, List.mem_cons] at hk
    push_neg at hk
    rw [mergeObj]
    cases hlk : lookupObj t k₁ with
    | none => simp only [hlk]; rw [ih _ k hk.2, lookupObj_setKey_ne _ _ _ _ (Ne.symm hk.1)]
    | some ex => simp only [hlk]; rw [ih _ k hk.2, lookupObj_setKey_ne _ _ _ _ (Ne.symm hk.1)]

theorem lookupObj_mergeObj_mem (o : List (String × Json)) :
    ∀ (t : List (String × Json)) (k : String) (v : Json),
      (o.map Prod.fst).Nodup → (k, v) ∈ o →
      lookupObj (mergeObj t o) k =
        some (match lookupObj t k with
              | some existing => mergeValue existing v
              | none => v) := by
  induction o with
  | nil => intro t k v _ hm; simp at hm
  | cons hd tl ih =>
    intro t k v hnd hm
    obtain ⟨k₁, v₁⟩ := hd
    simp only [List.map_cons, List.nodup_cons] at hnd
    rcases List.mem_cons.mp hm with heq | htl
    · obtain ⟨hk, hv⟩ := Prod.mk.injEq .. ▸ heq
      subst hk; subst hv
      have hnotin : k ∉ tl.map Prod.fst := hnd.1
      rw [mergeObj]
      cases hlk : lookupObj t k with
      | none =>
        simp only [hlk]
        rw [lookupObj_mergeObj_not_mem tl _ k hnotin, lookupObj_setKey_self]
      | some ex =>
        simp only [hlk]
        rw [lookupObj_mergeObj_not_mem tl _ k hnotin, lookupObj_setKey_self]
    · have hk1 : k₁ ≠ k := by
        intro hc
        exact hnd.1 (hc ▸ List.mem_map_of_mem Prod.fst htl)
      rw [mergeObj]
      cases hlk : lookupObj t k₁ with
      | none =>
        simp only [hlk]
        rw [ih _ k v hnd.2 htl, lookupObj_setKey_ne _ _ _ _ hk1]
      | some ex =>
        simp only [hlk]
        rw [ih _ k v hnd.2 htl, lookupObj_setKey_ne _ _ _ _ hk1]

/-! ## Claim C2: payload deep merge with protected pagination fields

The claim's universal rule "if both the existing and the override values
are objects the merge recurses" fails on the code: the source recurses
only when the existing value type-asserts as `map[string]interface{}`,
and the template's `map[string]string` leaves (each `aggs.*.terms.order`,
the `sort` entries) fail that assertion and are replaced outright even by
object overrides.  `merge_object_rule_cex` exhibits this at a concrete
reachable override; `build_payload_spec` proves the amended rule.
-/

/-- View of any value that serializes as a JSON object, as its field list:
both the untyped `map[string]interface{}` objects and the string-typed
`map[string]string` literals qualify. -/
def jsonFields : Json → Option (List (String × Json))
  | .obj fields => some fields
  | .strMap fields => some (fields.map fun kv => (kv.1, .str kv.2))
  | _ => none

/-- Lookup of a nested key path through JSON-object layers. -/
def lookupPath (fields : List (String × Json)) : List String → Option Json
  | [] => none
  | [k] => lookupObj fields k
  | k :: rest =>
    match lookupObj fields k with
    | some j =>
      match jsonFields j with
      | some fl => lookupPath fl rest
      | none => none
    | none => none

/-- Reachable override (JSON-decoded, so every composite value is an
untyped object) targeting the template's `map[string]string` leaf
`aggs.Brands.terms.order`. -/
def ovTypedLeaf : List (String × Json) :=
  [ ("aggs", .obj
      [ ("Brands", .obj
        [ ("terms", .obj
          [ ("order", .obj [("foo", .str "bar")]) ]) ]) ]) ]

/-- C2 counterexample: in the default template, `aggs.Brands.terms.order`
is a JSON object (a Go `map[string]string`), and the override supplies a
JSON object for the same path, so the claim's rule "if both the existing
and the override values are objects the merge recurses" predicts a
recursive merge that keeps the untouched key `_count`; the source's type
assertion `existing.(map[string]interface{})` fails on the
`map[string]string` leaf, so the override replaces the leaf outright and
`_count` is dropped. -/
theorem merge_object_rule_cex :
    (jsonFields (Json.strMap [("_count", "desc")])).isSome = true ∧
    (jsonFields (Json.obj [("foo", Json.str "bar")])).isSome = true ∧
    lookupPath (defaultEmbroideryPayload 0 120) ["aggs", "Brands", "terms", "order"] =
      some (Json.strMap [("_count", "desc")]) ∧
    lookupPath ovTypedLeaf ["aggs", "Brands", "terms", "order"] =
      some (Json.obj [("foo", Json.str "bar")]) ∧
    lookupPath (BuildEmbroideryPayload 0 120 ovTypedLeaf)
        ["aggs", "Brands", "terms", "order"] =
      some (Json.obj [("foo", Json.str "bar")]) ∧
    lookupPath (BuildEmbroideryPayload 0 120 ovTypedLeaf)
        ["aggs", "Brands", "terms", "order"] ≠
      some (Json.obj
        (mergeObj [("_count", Json.str "desc")] [("foo", Json.str "bar")])) := by
  refine ⟨rfl, rfl, rfl, rfl, rfl, ?_⟩
  intro h
  have h2 : some (Json.obj [("foo", Json.str "bar")]) =
      some (Json.obj [("_count", Json.str "desc"), ("foo", Json.str "bar")]) := h
  injection h2 with h3
  injection h3 with h4
  simpa using congrArg List.length h4

/-- C2 amended: `BuildEmbroideryPayload` returns the default template
deep-merged with the overrides: the result's `from` and `size` always
equal the caller-supplied arguments regardless of the overrides; every key
absent from the overrides (other than the forced pagination fields) keeps
its template value; for each key present in the overrides the merged value
recurses when the override value is an object and the existing value is an
untyped object (`map[string]interface{}`), and is the override value
outright otherwise — arrays and scalars are replaced, never merged, and so
are the template's string-typed `map[string]string` leaves, even when the
override is an object. -/
theorem build_payload_spec (frm size : Int) (overrides : List (String × Json)) :
    lookupObj (BuildEmbroideryPayload frm size overrides) "from" = some (.num frm) ∧
    lookupObj (BuildEmbroideryPayload frm size overrides) "size" = some (.num size) ∧
    (∀ k, k ∉ overrides.map Prod.fst → k ≠ "from" → k ≠ "size" →
      lookupObj (BuildEmbroideryPayload frm size overrides) k =
        lookupObj (defaultEmbroideryPayload frm size) k) ∧
    (∀ t o k v, (List.map Prod.fst o).Nodup → (k, v) ∈ o →
      lookupObj (mergeObj t o) k =
        some (match lookupObj t k with
              | some existing => mergeValue existing v
              | none => v)) ∧
    (∀ tm om, mergeValue (.obj tm) (.obj om) = .obj (mergeObj tm om)) ∧
    (∀ sm om, mergeValue (.strMap sm) (.obj om) = .obj om) ∧
    (∀ ex ov, (∀ om, ov ≠ .obj om) → mergeValue ex ov = ov) ∧
    (∀ ex ov, (∀ tm, ex ≠ .obj tm) → mergeValue ex ov = ov) := by
  refine ⟨?_, ?_, ?_, ?_, ?_, ?_, ?_, ?_⟩
  · rw [BuildEmbroideryPayload]
    rw [lookupObj_setKey_ne _ _ _ _ (by decide), lookupObj_setKey_self]
  · rw [BuildEmbroideryPayload, lookupObj_setKey_self]
  · intro k hk hf hs
    rw [BuildEmbroideryPayload]
    rw [lookupObj_setKey_ne _ _ _ _ (Ne.symm hs), lookupObj_setKey_ne _ _ _ _ (Ne.symm hf)]
    by_cases hlen : overrides.length > 0
    · simp only [hlen, if_true]
      exact lookupObj_mergeObj_not_mem overrides _ k hk
    · simp only [hlen, if_false]
  · intro t o k v hnd hm
    exact lookupObj_mergeObj_mem o t k v hnd hm
  · intro tm om; rw [mergeValue]
  · intro sm om; rfl
  · intro ex ov hov
    cases ex <;> cases ov <;> first
      | rfl
      | (exact absurd rfl (hov _))
  · intro ex ov hex
    cases ex <;> cases ov <;> first
      | rfl
      | (exact absurd rfl (hex _))

/-- Example overrides from the spec's testable property: a `query.bool.must`
replacement plus an attempt to smuggle in `from: 999`. -/
def ovExample : List (String × Json) :=
  [ ("query", .obj
      [ ("bool", .obj
        [ ("must", .arr [.obj [("term", .obj [("inStock", .bool true)])]]) ]) ]),
    ("from", .num 999) ]

/-- Witness for the amended C2 at concrete input: `from`/`size` are forced
to the caller's values even though the overrides set `from: 999`, the
untouched sibling `aggs` keeps its template value, and an object override
replaces (not merges) a `map[string]string` leaf. -/
theorem build_payload_spec_witness :
    lookupObj (BuildEmbroideryPayload 5 120 ovExample) "from" = some (.num 5) ∧
    lookupObj (BuildEmbroideryPayload 5 120 ovExample) "size" = some (.num 120) ∧
    lookupObj (BuildEmbroideryPayload 5 120 ovExample) "aggs" =
      lookupObj (defaultEmbroideryPayload 5 120) "aggs" ∧
    mergeValue (.strMap [("_count", "desc")]) (.obj [("foo", .str "bar")]) =
      .obj [("foo", .str "bar")] :=
  ⟨(build_payload_spec 5 120 ovExample).1,
   (build_payload_spec 5 120 ovExample).2.1,
   (build_payload_spec 5 120 ovExample).2.2.1 "aggs" (by decide) (by decide) (by decide),
   (build_payload_spec 5 120 ovExample).2.2.2.2.2.1 [("_count", "desc")]
     [("foo", .str "bar")]⟩

/-! ## Claim C1: batch health check and the max-failures threshold -/

/-- C1 divergence: the claim (and the spec, and the source's own comment
"Mark as inactive if failures exceed threshold") say a proxy is marked
inactive only once its incremented failure counter reaches `max_failures`
(3), but the unhealthy branch of `Repository.UpdateProxyHealth` sets
`is_active = false` unconditionally: a proxy with `failure_count = 0`
is already inactive after its first failed check.  The healthy branch does
behave as claimed (counter reset to 0, marked active). -/
theorem proxy_health_divergence :
    UpdateProxyHealth ⟨1, true, 0⟩ false = ⟨1, false, 1⟩ ∧
    (1 : Int) < 3 ∧
    UpdateProxyHealth ⟨1, false, 2⟩ true = ⟨1, true, 0⟩ ∧
    CheckAllProxies [⟨1, true, 0⟩, ⟨2, true, 1⟩, ⟨3, false, 5⟩]
        (fun i => if i = 3 then some true else some false) =
      [⟨1, false, 1⟩, ⟨2, false, 2⟩, ⟨3, true, 0⟩] := by
  refine ⟨rfl, by decide, rfl, ?_⟩
  simp [CheckAllProxies, UpdateProxyHealth]

/-! ## Claim C5: starting an already-running task -/

/-- C5: `StartTask` on a task whose persisted status is `running` returns
the "already running" error with the service state unchanged (no status
write, no cancellation handle registered, no execution spawned); on a task
in any other status it succeeds, persists status `running`, registers the
cancellation handle and hands the task off for execution. -/
theorem start_task_spec (s : ServiceState) (id : Int) (st : TaskStatus)
    (h : s.tasks id = some st) :
    (st = .running → StartTask s id = (s, some .alreadyRunning)) ∧
    (st ≠ .running →
      (StartTask s id).2 = none ∧
      (StartTask s id).1.tasks id = some .running ∧
      id ∈ (StartTask s id).1.activeTasks ∧
      id ∈ (StartTask s id).1.spawned) := by
  constructor
  · intro hr
    subst hr
    simp [StartTask, h]
  · intro hr
    simp [StartTask, h, hr, repoUpdateTaskStatus]

/-- Concrete service state for the C5 witness: task 1 pending, task 2
running. -/
def sampleServiceState : ServiceState :=
  { tasks := fun j => if j = 1 then some .pending else if j = 2 then some .running else none
    activeTasks := [2]
    canceledCtx := []
    monitors := [2]
    spawned := [2]
    workerPoolStarted := true }

/-- Witness for C5 at concrete input: starting running task 2 fails and
leaves the state untouched; starting pending task 1 succeeds, records
status `running`, registers the handle and spawns the execution. -/
theorem start_task_spec_witness :
    (StartTask sampleServiceState 2 = (sampleServiceState, some .alreadyRunning)) ∧
    ((StartTask sampleServiceState 1).2 = none ∧
      (StartTask sampleServiceState 1).1.tasks 1 = some .running ∧
      1 ∈ (StartTask sampleServiceState 1).1.activeTasks ∧
      1 ∈ (StartTask sampleServiceState 1).1.spawned) :=
  ⟨(start_task_spec sampleServiceState 2 .running (by simp [sampleServiceState])).1 rfl,
   (start_task_spec sampleServiceState 1 .pending (by simp [sampleServiceState])).2 (by decide)⟩

/-! ## Claim C7: pause is a status label only -/

/-- C7: `PauseTask` only records the paused status: the cancellation-handle
map, the set of cancelled execution contexts, the periodic monitors, the
spawned executions and the worker pool are all left untouched, and the
only state change is the persisted status write. -/
theorem pause_task_frame (s : ServiceState) (id : Int) :
    (PauseTask s id).activeTasks = s.activeTasks ∧
    (PauseTask s id).canceledCtx = s.canceledCtx ∧
    (PauseTask s id).monitors = s.monitors ∧
    (PauseTask s id).spawned = s.spawned ∧
    (PauseTask s id).workerPoolStarted = s.workerPoolStarted ∧
    (PauseTask s id).tasks = repoUpdateTaskStatus s.tasks id .paused := by
  refine ⟨rfl, rfl, rfl, rfl, rfl, rfl⟩

/-! ## Claim C9: the monitor baseline is captured once and never updated -/

theorem monitorLoop_eq_map (lastTotal : Int) (fetched : Nat → Option Int) :
    ∀ (n i : Nat), monitorLoop lastTotal fetched i n =
      (List.range' i n).map fun j => checkForNewProducts lastTotal (fetched j) := by
  intro n
  induction n with
  | zero => intro i; simp [monitorLoop]
  | succ m ih => intro i; simp [monitorLoop, List.range'_succ, ih]

/-- C9: every tick of the periodic monitor compares the freshly fetched
total against the same `lastTotal` captured when the monitor started, and
every incremental crawl it launches starts at that same original offset:
whenever the fetched total at some tick `j` exceeds the baseline, the
monitor launches `IncrementalCrawl` from `lastTotal`, and every launch the
loop ever performs — no matter how many incremental crawls completed
before — starts from `lastTotal`. -/
theorem monitor_baseline_fixed (lastTotal : Int) (fetched : Nat → Option Int)
    (i n j : Nat) (t : Int) (hij : i ≤ j) (hjn : j < i + n)
    (ht : fetched j = some t) (hgt : lastTotal < t) :
    checkForNewProducts lastTotal (fetched j) = .launchIncremental lastTotal ∧
    MonitorAction.launchIncremental lastTotal ∈ monitorLoop lastTotal fetched i n ∧
    (∀ f, MonitorAction.launchIncremental f ∈ monitorLoop lastTotal fetched i n →
      f = lastTotal) := by
  have hact : checkForNewProducts lastTotal (fetched j) = .launchIncremental lastTotal := by
    rw [ht, checkForNewProducts]
    simp [hgt]
  refine ⟨hact, ?_, ?_⟩
  · rw [monitorLoop_eq_map]
    rw [← hact]
    exact List.mem_map_of_mem _ (List.mem_range'_1.mpr ⟨hij, hjn⟩)
  · intro f hf
    rw [monitorLoop_eq_map] at hf
    obtain ⟨j', _, hact'⟩ := List.mem_map.mp hf
    unfold checkForNewProducts at hact'
    cases hfj : fetched j' with
    | none => rw [hfj] at hact'; simp at hact'
    | some ct =>
      rw [hfj] at hact'
      by_cases hlt : lastTotal < ct
      · simp [hlt] at hact'
        exact hact'.symm
      · simp [hlt] at hact'

/-- Witness for C9 at concrete input: after a bulk run captured a baseline
of 250, two ticks that both see an upstream total of 300 both launch an
incremental crawl from offset 250 (the same delta re-fetched). -/
theorem monitor_baseline_fixed_witness :
    checkForNewProducts 250 (some 300) = .launchIncremental 250 ∧
    MonitorAction.launchIncremental 250 ∈ monitorLoop 250 (fun _ => some 300) 0 2 ∧
    (∀ f, MonitorAction.launchIncremental f ∈ monitorLoop 250 (fun _ => some 300) 0 2 →
      f = 250) :=
  monitor_baseline_fixed 250 (fun _ => some 300) 0 2 1 300
    (by decide) (by decide) rfl (by decide)

/-! ## Claim C10: empty proxy pool never aborts a crawl -/

/-- C10: when proxying is enabled but acquiring a proxy fails (the pool is
empty, so `ProxyPool.GetProxy` errors), the page request does not fail:
both `EmbroideryAPICrawler.makeRequest` and `APICrawler.Crawl` log a
warning, keep `currentProxy = nil`, and obtain a direct proxy-less HTTP
client from the manager. -/
theorem proxy_acquisition_fallback (pool : Except Unit ProxyRow)
    (h : pool = .error ()) :
    makeRequestClient true pool = .ok .direct ∧
    apiCrawlerClient true pool = .ok .direct ∧
    (∀ pick : Nat, poolGetProxy [] pick = .error ()) := by
  subst h
  exact ⟨rfl, rfl, fun _ => rfl⟩

/-- Witness for C10 at concrete input: the empty-pool pick error falls back
to a direct client in both crawlers. -/
theorem proxy_acquisition_fallback_witness :
    makeRequestClient true (poolGetProxy [] 0) = .ok .direct ∧
    apiCrawlerClient true (poolGetProxy [] 0) = .ok .direct ∧
    (∀ pick : Nat, poolGetProxy [] pick = .error ()) :=
  proxy_acquisition_fallback (poolGetProxy [] 0) rfl

/-! ## Retry lemmas -/

theorem retryLoop_sleep_delay (cfg : RetryConfig) (db dd : Nat → Bool)
    (res : Nat → Option Nat) :
    ∀ (fuel a : Nat) (le : Option Nat) (x : Nat) (d : Int),
      REvent.sleep x d ∈ (retryLoop cfg db dd res a le fuel).1 →
      a ≤ x ∧ d = delayOf cfg x := by
  intro fuel
  induction fuel with
  | zero => intro a le x d h; simp [retryLoop] at h
  | succ f ih =>
    intro a le x d h
    rw [retryLoop] at h
    split at h
    · simp at h
    · split at h
      · simp at h
      · split at h
        · simp at h
        · rename_i e hres
          split at h
          · split at h
            · simp at h
            · simp only [List.mem_cons] at h
              rcases h with h | h | h
              · exact absurd h (by simp)
              · obtain ⟨hx, hd⟩ := REvent.sleep.inj h
                subst hx
                exact ⟨le_refl _, hd⟩
              · obtain ⟨hax, hd⟩ := ih (a + 1) (some e) x d h
                exact ⟨by omega, hd⟩
          · simp only [List.mem_cons] at h
            rcases h with h | h
            · exact absurd h (by simp)
            · obtain ⟨hax, hd⟩ := ih (a + 1) (some e) x d h
              exact ⟨by omega, hd⟩

/-! ## Claim C3: the backoff delay formula -/

/-- Retry configuration of the spec's testable property: 4 attempts,
multiplier 2, initial delay 1s, max delay 30s (durations in nanoseconds,
as in Go's `time.Duration`). -/
def cfg4 : RetryConfig := ⟨4, 2, 1000000000, 30000000000⟩

/-- Context oracle that never signals cancellation. -/
def noCancel : Nat → Bool := fun _ => false

/-- Operation oracle whose every invocation fails with error code 0. -/
def failAlways : Nat → Option Nat := fun _ => some 0

/-- C3 counterexample: for the spec's own parameters (initial 1s,
multiplier 2, max 30s), the delay slept before attempt 2 is 1s, not the
claimed `initial_delay * multiplier^(2-1) = 2s` (capped at 30s): the source
computes `delay * multiplier^(attempt-1)` with `delay` pinned at the
initial delay and `attempt` the attempt that just failed, so the sleep
before attempt n is `initial_delay * multiplier^(n-2)`. -/
theorem retry_backoff_claim_cex :
    (1000000000 : Int) ∈ sleepsBefore (Retry cfg4 noCancel noCancel failAlways).1 2 ∧
    ¬ (∀ d : Int, d ∈ sleepsBefore (Retry cfg4 noCancel noCancel failAlways).1 2 →
        d = min (cfg4.initialDelay * cfg4.backoffMultiplier ^ (2 - 1)) cfg4.maxDelay) := by
  constructor
  · decide
  · intro hcl
    exact absurd (hcl 1000000000 (by decide)) (by decide)

/-- C3 amended: in `Retry`, the backoff delay slept before attempt `n`
(such a sleep occurs only after a failed attempt `n-1` with attempts
remaining, so `n ≥ 2`) equals `initial_delay * multiplier^(n-2)`, capped at
`max_delay`. -/
theorem retry_backoff_delay (cfg : RetryConfig) (db dd : Nat → Bool)
    (res : Nat → Option Nat) (n : Nat) (d : Int)
    (h : d ∈ sleepsBefore (Retry cfg db dd res).1 n) :
    2 ≤ n ∧ d = min (cfg.initialDelay * cfg.backoffMultiplier ^ (n - 2)) cfg.maxDelay := by
  obtain ⟨e, hmem, hf⟩ := List.mem_filterMap.mp h
  cases e with
  | call a ok => simp at hf
  | sleep a d' =>
    simp only at hf
    split at hf
    · rename_i ha
      obtain hd2 := Option.some.inj hf
      obtain ⟨h1, hd⟩ :=
        retryLoop_sleep_delay cfg db dd res (cfg.maxAttempts + 1) 1 none a d' hmem
      refine ⟨by omega, ?_⟩
      rw [← hd2, hd, delayOf]
      have hex : a - 1 = n - 2 := by omega
      rw [hex]
    · exact absurd hf (by simp)

/-- Witness for the amended C3 at concrete input: the sleep before attempt
2 with the spec's parameters is exactly 1s, the capped
`initial_delay * multiplier^(2-2)`. -/
theorem retry_backoff_delay_witness :
    (1000000000 : Int) ∈ sleepsBefore (Retry cfg4 noCancel noCancel failAlways).1 2 ∧
    2 ≤ 2 ∧
    (1000000000 : Int) =
      min (cfg4.initialDelay * cfg4.backoffMultiplier ^ (2 - 2)) cfg4.maxDelay :=
  ⟨by decide, retry_backoff_delay cfg4 noCancel noCancel failAlways 2 1000000000 (by decide)⟩

/-! ## Claim C4: retry attempt accounting and cancellation -/

theorem failRun_succ (cfg : RetryConfig) (a n : Nat) :
    failRun cfg a (n + 1) =
      .call a false :: .sleep a (delayOf cfg a) :: failRun cfg (a + 1) n := by
  simp [failRun, List.range'_succ]

theorem countCalls_append (l₁ l₂ : List REvent) :
    countCalls (l₁ ++ l₂) = countCalls l₁ + countCalls l₂ := by
  simp [countCalls, List.filter_append]

theorem countCalls_cons_call (a : Nat) (b : Bool) (l : List REvent) :
    countCalls (.call a b :: l) = countCalls l + 1 := by
  simp [countCalls, List.filter_cons]

theorem countCalls_cons_sleep (a : Nat) (d : Int) (l : List REvent) :
    countCalls (.sleep a d :: l) = countCalls l := by
  simp [countCalls, List.filter_cons]

theorem countCalls_failRun (cfg : RetryConfig) :
    ∀ (n a : Nat), countCalls (failRun cfg a n) = n := by
  intro n
  induction n with
  | zero => intro a; simp [failRun, countCalls]
  | succ m ih =>
    intro a
    rw [failRun_succ, countCalls_cons_call, countCalls_cons_sleep, ih]

/-- Characterization of a clean run of `n` consecutive failed attempts from
attempt `a`: no cancellation is observed and every attempt in `[a, a+n)`
fails, with attempts still remaining afterwards, so the loop emits the
corresponding call/sleep pairs and continues at attempt `a+n` carrying the
error of attempt `a+n-1`. -/
theorem retryLoop_clean_steps (cfg : RetryConfig) (db dd : Nat → Bool)
    (res : Nat → Option Nat) :
    ∀ (n F a : Nat) (le : Option Nat), n < F → 1 ≤ a → a + n ≤ cfg.maxAttempts →
      (∀ i, a ≤ i → i < a + n → res i ≠ none ∧ db i = false ∧ dd i = false) →
      retryLoop cfg db dd res a le F =
        (failRun cfg a n ++
          (retryLoop cfg db dd res (a + n) (if n = 0 then le else res (a + n - 1))
            (F - n)).1,
         (retryLoop cfg db dd res (a + n) (if n = 0 then le else res (a + n - 1))
            (F - n)).2) := by
  intro n
  induction n with
  | zero =>
    intro F a le hF ha hle hclean
    simp [failRun]
  | succ m ih =>
    intro F a le hF ha hle hclean
    obtain ⟨F', rfl⟩ : ∃ F', F = F' + 1 := ⟨F - 1, by omega⟩
    obtain ⟨hres, hdb, hdd⟩ := hclean a (le_refl a) (by omega)
    rw [retryLoop]
    rw [if_neg (by omega : ¬ cfg.maxAttempts < a)]
    rw [hdb]
    simp only [Bool.false_eq_true, if_false]
    split
    · rename_i hnone
      exact absurd hnone hres
    · rename_i e he
      rw [if_pos (by omega : a < cfg.maxAttempts)]
      rw [hdd]
      simp only [Bool.false_eq_true, if_false]
      have hrec := ih F' (a + 1) (some e) (by omega) (by omega) (by omega)
        (fun i h1 h2 => hclean i (by omega) (by omega))
      rw [hrec]
      have hle2 : (if m = 0 then some e else res (a + 1 + m - 1)) = res (a + m) := by
        cases m with
        | zero => simpa using he.symm
        | succ k =>
          simp only [Nat.succ_ne_zero, if_false]
          congr 1
          omega
      have hle3 : (if m + 1 = 0 then le else res (a + (m + 1) - 1)) = res (a + m) := by
        have h9 : a + (m + 1) - 1 = a + m := by omega
        simp only [Nat.succ_ne_zero, if_false, h9]
      rw [hle2, hle3, failRun_succ]
      have hidx : a + 1 + m = a + (m + 1) := by omega
      have hfuel : F' - m = F' + 1 - (m + 1) := by omega
      rw [hidx, hfuel]
      simp [List.cons_append]

theorem retry_first_success (cfg : RetryConfig) (db dd : Nat → Bool)
    (res : Nat → Option Nat) (k : Nat) (hk1 : 1 ≤ k) (hkm : k ≤ cfg.maxAttempts)
    (hclean : ∀ i, 1 ≤ i → i < k → res i ≠ none ∧ db i = false ∧ dd i = false)
    (hsucc : res k = none) (hdbk : db k = false) :
    Retry cfg db dd res = (failRun cfg 1 (k - 1) ++ [.call k true], none) := by
  have hstep : ∀ le', retryLoop cfg db dd res k le' (cfg.maxAttempts + 1 - (k - 1)) =
      ([.call k true], none) := by
    intro le'
    obtain ⟨G, hG⟩ : ∃ G, cfg.maxAttempts + 1 - (k - 1) = G + 1 :=
      ⟨cfg.maxAttempts + 1 - (k - 1) - 1, by omega⟩
    rw [hG, retryLoop]
    rw [if_neg (by omega : ¬ cfg.maxAttempts < k)]
    rw [hdbk]
    simp only [Bool.false_eq_true, if_false]
    split
    · rfl
    · rename_i e he
      exact absurd he (by simp [hsucc])
  have hk2 : 1 + (k - 1) = k := by omega
  have hsteps := retryLoop_clean_steps cfg db dd res (k - 1) (cfg.maxAttempts + 1) 1 none
    (by omega) (le_refl 1) (by omega) (fun i h1 h2 => hclean i h1 (by omega))
  rw [Retry, hsteps, hk2, hstep]

theorem retry_all_fail (cfg : RetryConfig) (db dd : Nat → Bool)
    (res : Nat → Option Nat) (hm : 1 ≤ cfg.maxAttempts)
    (hfail : ∀ i, 1 ≤ i → i ≤ cfg.maxAttempts → res i ≠ none ∧ db i = false)
    (hdd : ∀ i, 1 ≤ i → i < cfg.maxAttempts → dd i = false) :
    ∃ e, res cfg.maxAttempts = some e ∧
      Retry cfg db dd res =
        (failRun cfg 1 (cfg.maxAttempts - 1) ++ [.call cfg.maxAttempts false],
         some (.fnErr e)) := by
  obtain ⟨hresM, hdbM⟩ := hfail cfg.maxAttempts hm (le_refl _)
  obtain ⟨e, he⟩ := Option.ne_none_iff_exists'.mp hresM
  refine ⟨e, he, ?_⟩
  have hfin : retryLoop cfg db dd res (cfg.maxAttempts + 1) (some e) 1 =
      ([], some (.fnErr e)) := by
    rw [retryLoop]
    rw [if_pos (by omega : cfg.maxAttempts < cfg.maxAttempts + 1)]
    rfl
  have hstep : ∀ le', retryLoop cfg db dd res cfg.maxAttempts le'
      (cfg.maxAttempts + 1 - (cfg.maxAttempts - 1)) =
      ([.call cfg.maxAttempts false], some (.fnErr e)) := by
    intro le'
    have hG : cfg.maxAttempts + 1 - (cfg.maxAttempts - 1) = 1 + 1 := by omega
    rw [hG, retryLoop]
    rw [if_neg (by omega : ¬ cfg.maxAttempts < cfg.maxAttempts)]
    rw [hdbM]
    simp only [Bool.false_eq_true, if_false]
    split
    · rename_i hnone
      exact absurd hnone hresM
    · rename_i e' he'
      have hee : e' = e := by
        rw [he] at he'
        exact (Option.some.inj he').symm
      subst hee
      rw [if_neg (by omega : ¬ cfg.maxAttempts < cfg.maxAttempts)]
      rw [hfin]
  have hk2 : 1 + (cfg.maxAttempts - 1) = cfg.maxAttempts := by omega
  have hsteps := retryLoop_clean_steps cfg db dd res (cfg.maxAttempts - 1)
    (cfg.maxAttempts + 1) 1 none (by omega) (le_refl 1) (by omega)
    (fun i h1 h2 => ⟨(hfail i h1 (by omega)).1, (hfail i h1 (by omega)).2, hdd i h1 (by omega)⟩)
  rw [Retry, hsteps, hk2, hstep]

theorem retry_cancel_before (cfg : RetryConfig) (db dd : Nat → Bool)
    (res : Nat → Option Nat) (a : Nat) (ha : 1 ≤ a) (ham : a ≤ cfg.maxAttempts)
    (hclean : ∀ i, 1 ≤ i → i < a → res i ≠ none ∧ db i = false ∧ dd i = false)
    (hdba : db a = true) :
    Retry cfg db dd res = (failRun cfg 1 (a - 1), some .ctxErr) := by
  have hstep : ∀ le', retryLoop cfg db dd res a le' (cfg.maxAttempts + 1 - (a - 1)) =
      ([], some .ctxErr) := by
    intro le'
    obtain ⟨G, hG⟩ : ∃ G, cfg.maxAttempts + 1 - (a - 1) = G + 1 :=
      ⟨cfg.maxAttempts + 1 - (a - 1) - 1, by omega⟩
    rw [hG, retryLoop]
    rw [if_neg (by omega : ¬ cfg.maxAttempts < a)]
    rw [hdba]
    simp only [if_pos]
  have hk2 : 1 + (a - 1) = a := by omega
  have hsteps := retryLoop_clean_steps cfg db dd res (a - 1) (cfg.maxAttempts + 1) 1 none
    (by omega) (le_refl 1) (by omega) (fun i h1 h2 => hclean i h1 (by omega))
  rw [Retry, hsteps, hk2, hstep]
  simp

theorem retry_cancel_during (cfg : RetryConfig) (db dd : Nat → Bool)
    (res : Nat → Option Nat) (a : Nat) (ha : 1 ≤ a) (ham : a < cfg.maxAttempts)
    (hclean : ∀ i, 1 ≤ i → i < a → res i ≠ none ∧ db i = false ∧ dd i = false)
    (hdba : db a = false) (hresa : res a ≠ none) (hdda : dd a = true) :
    Retry cfg db dd res = (failRun cfg 1 (a - 1) ++ [.call a false], some .ctxErr) := by
  have hstep : ∀ le', retryLoop cfg db dd res a le' (cfg.maxAttempts + 1 - (a - 1)) =
      ([.call a false], some .ctxErr) := by
    intro le'
    obtain ⟨G, hG⟩ : ∃ G, cfg.maxAttempts + 1 - (a - 1) = G + 1 :=
      ⟨cfg.maxAttempts + 1 - (a - 1) - 1, by omega⟩
    rw [hG, retryLoop]
    rw [if_neg (by omega : ¬ cfg.maxAttempts < a)]
    rw [hdba]
    simp only [Bool.false_eq_true, if_false]
    split
    · rename_i hnone
      exact absurd hnone hresa
    · rename_i e he
      rw [if_pos ham, hdda]
      simp only [if_pos]
  have hk2 : 1 + (a - 1) = a := by omega
  have hsteps := retryLoop_clean_steps cfg db dd res (a - 1) (cfg.maxAttempts + 1) 1 none
    (by omega) (le_refl 1) (by omega) (fun i h1 h2 => hclean i h1 (by omega))
  rw [Retry, hsteps, hk2, hstep]

/-- C4: `Retry` (1) returns `nil` immediately on the first successful
attempt `k` — the trace ends at `.call k true`, with exactly `k`
invocations and no later sleeps; (2) when every attempt fails it invokes
the operation exactly `max_attempts` times and returns the error of the
last attempt; (3) when cancellation is observed at the check before
attempt `a`, it returns the context error with only `a - 1` invocations
performed; (4) when cancellation is observed during the backoff sleep
after a failed attempt `a`, it returns the context error with exactly `a`
invocations performed — never invoking the operation again. -/
theorem retry_contract (cfg : RetryConfig) (db dd : Nat → Bool)
    (res : Nat → Option Nat) :
    (∀ k, 1 ≤ k → k ≤ cfg.maxAttempts →
      (∀ i, 1 ≤ i → i < k → res i ≠ none ∧ db i = false ∧ dd i = false) →
      res k = none → db k = false →
      Retry cfg db dd res = (failRun cfg 1 (k - 1) ++ [.call k true], none) ∧
      countCalls (Retry cfg db dd res).1 = k) ∧
    (1 ≤ cfg.maxAttempts →
      (∀ i, 1 ≤ i → i ≤ cfg.maxAttempts → res i ≠ none ∧ db i = false) →
      (∀ i, 1 ≤ i → i < cfg.maxAttempts → dd i = false) →
      ∃ e, res cfg.maxAttempts = some e ∧
        Retry cfg db dd res =
          (failRun cfg 1 (cfg.maxAttempts - 1) ++ [.call cfg.maxAttempts false],
           some (.fnErr e)) ∧
        countCalls (Retry cfg db dd res).1 = cfg.maxAttempts) ∧
    (∀ a, 1 ≤ a → a ≤ cfg.maxAttempts →
      (∀ i, 1 ≤ i → i < a → res i ≠ none ∧ db i = false ∧ dd i = false) →
      db a = true →
      Retry cfg db dd res = (failRun cfg 1 (a - 1), some .ctxErr) ∧
      countCalls (Retry cfg db dd res).1 = a - 1) ∧
    (∀ a, 1 ≤ a → a < cfg.maxAttempts →
      (∀ i, 1 ≤ i → i < a → res i ≠ none ∧ db i = false ∧ dd i = false) →
      db a = false → res a ≠ none → dd a = true →
      Retry cfg db dd res = (failRun cfg 1 (a - 1) ++ [.call a false], some .ctxErr) ∧
      countCalls (Retry cfg db dd res).1 = a) := by
  refine ⟨?_, ?_, ?_, ?_⟩
  · intro k hk1 hkm hclean hsucc hdbk
    have htr := retry_first_success cfg db dd res k hk1 hkm hclean hsucc hdbk
    refine ⟨htr, ?_⟩
    rw [htr]
    simp only [countCalls_append, countCalls_failRun]
    rw [countCalls_cons_call]
    simp [countCalls]
    omega
  · intro hm hfail hdd
    obtain ⟨e, he, htr⟩ := retry_all_fail cfg db dd res hm hfail hdd
    refine ⟨e, he, htr, ?_⟩
    rw [htr]
    simp only [countCalls_append, countCalls_failRun]
    rw [countCalls_cons_call]
    simp [countCalls]
    omega
  · intro a ha ham hclean hdba
    have htr := retry_cancel_before cfg db dd res a ha ham hclean hdba
    refine ⟨htr, ?_⟩
    rw [htr]
    simp only [countCalls_failRun]
  · intro a ha ham hclean hdba hresa hdda
    have htr := retry_cancel_during cfg db dd res a ha ham hclean hdba hresa hdda
    refine ⟨htr, ?_⟩
    rw [htr]
    simp only [countCalls_append, countCalls_failRun]
    rw [countCalls_cons_call]
    simp [countCalls]
    omega

/-- Witness for C4 at concrete input (the spec's always-failing scenario):
with 4 attempts, multiplier 2, 1s initial delay, no cancellation and an
operation that always fails with error 0, `Retry` performs exactly 4
invocations with sleeps of 1s, 2s, 4s between them and returns the last
error. -/
theorem retry_contract_witness :
    ∃ e, failAlways cfg4.maxAttempts = some e ∧
      Retry cfg4 noCancel noCancel failAlways =
        (failRun cfg4 1 (cfg4.maxAttempts - 1) ++ [.call cfg4.maxAttempts false],
         some (.fnErr e)) ∧
      countCalls (Retry cfg4 noCancel noCancel failAlways).1 = cfg4.maxAttempts :=
  (retry_contract cfg4 noCancel noCancel failAlways).2.1 (by decide)
    (fun i _ _ => ⟨by simp [failAlways], rfl⟩) (fun i _ _ => rfl)

/-! ## Claim C6: cursor monotonicity and persist-before-request -/

/-- Trace of a run whose iterations ran at the listed cursor offsets: each
iteration persists its offset and then requests at it. -/
def pairEvents (offs : List Int) : List CrawlEvent :=
  offs.flatMap fun g => [.persistFrom g, .request g]

theorem pairEvents_cons (g : Int) (l : List Int) :
    pairEvents (g :: l) = .persistFrom g :: .request g :: pairEvents l := by
  simp [pairEvents]

theorem pairEvents_request_preceded (offs : List Int) :
    ∀ (j : Nat) (f : Int), (pairEvents offs)[j]? = some (.request f) →
      1 ≤ j ∧ (pairEvents offs)[j - 1]? = some (.persistFrom f) := by
  induction offs with
  | nil => intro j f h; simp [pairEvents] at h
  | cons g l ih =>
    intro j f h
    rw [pairEvents_cons] at h
    match j with
    | 0 => simp at h
    | 1 =>
      simp at h
      subst h
      refine ⟨le_refl 1, ?_⟩
      rw [pairEvents_cons]
      simp
    | k + 2 =>
      rw [List.getElem?_cons_succ, List.getElem?_cons_succ] at h
      obtain ⟨hk, hprev⟩ := ih k f h
      refine ⟨by omega, ?_⟩
      rw [pairEvents_cons]
      have hk2 : k + 2 - 1 = (k - 1) + 2 := by omega
      rw [hk2, List.getElem?_cons_succ, List.getElem?_cons_succ]
      exact hprev

theorem crawlLoop_trace_shape (ps : Nat) (resp : Nat → PageResp) (done : Nat → Bool) :
    ∀ (fuel i : Nat) (frm ta tp : Int),
      ∃ offs : List Int,
        (crawlLoop ps resp done i frm ta tp fuel).1 = pairEvents offs ∧
        (offs = [] ∨ offs.head? = some frm) ∧
        List.Chain' (fun a b => b = a ∨ b = a + (ps : Int)) offs := by
  intro fuel
  induction fuel with
  | zero =>
    intro i frm ta tp
    exact ⟨[], rfl, Or.inl rfl, List.chain'_nil⟩
  | succ f ih =>
    intro i frm ta tp
    rw [crawlLoop]
    split
    · exact ⟨[], rfl, Or.inl rfl, List.chain'_nil⟩
    · split
      · obtain ⟨offs, h1, h2, h3⟩ := ih (i + 1) frm ta tp
        refine ⟨frm :: offs, ?_, Or.inr rfl, ?_⟩
        · rw [pairEvents_cons]
          simp [h1]
        · rw [List.chain'_cons']
          refine ⟨?_, h3⟩
          intro y hy
          rcases h2 with h2 | h2
          · subst h2; simp at hy
          · rw [h2] at hy
            exact Or.inl (Option.mem_some_iff.mp hy).symm
      · obtain ⟨offs, h1, h2, h3⟩ := ih (i + 1) frm ta tp
        refine ⟨frm :: offs, ?_, Or.inr rfl, ?_⟩
        · rw [pairEvents_cons]
          simp [h1]
        · rw [List.chain'_cons']
          refine ⟨?_, h3⟩
          intro y hy
          rcases h2 with h2 | h2
          · subst h2; simp at hy
          · rw [h2] at hy
            exact Or.inl (Option.mem_some_iff.mp hy).symm
      · rename_i total cnt heq
        split
        · split
          · exact ⟨[frm], by rw [pairEvents_cons]; rfl, Or.inr rfl, List.chain'_singleton frm⟩
          · simp only []
            split
            · exact ⟨[frm], by rw [pairEvents_cons]; rfl, Or.inr rfl,
                List.chain'_singleton frm⟩
            · split
              · exact ⟨[frm], by rw [pairEvents_cons]; rfl, Or.inr rfl,
                  List.chain'_singleton frm⟩
              · obtain ⟨offs, h1, h2, h3⟩ :=
                  ih (i + 1) (frm + (ps : Int)) total (tp + (cnt : Int))
                refine ⟨frm :: offs, ?_, Or.inr rfl, ?_⟩
                · rw [pairEvents_cons]
                  simp [h1]
                · rw [List.chain'_cons']
                  refine ⟨?_, h3⟩
                  intro y hy
                  rcases h2 with h2 | h2
                  · subst h2; simp at hy
                  · rw [h2] at hy
                    exact Or.inr (Option.mem_some_iff.mp hy).symm
        · split
          · exact ⟨[frm], by rw [pairEvents_cons]; rfl, Or.inr rfl, List.chain'_singleton frm⟩
          · simp only []
            split
            · exact ⟨[frm], by rw [pairEvents_cons]; rfl, Or.inr rfl,
                List.chain'_singleton frm⟩
            · split
              · exact ⟨[frm], by rw [pairEvents_cons]; rfl, Or.inr rfl,
                  List.chain'_singleton frm⟩
              · obtain ⟨offs, h1, h2, h3⟩ :=
                  ih (i + 1) (frm + (ps : Int)) ta (tp + (cnt : Int))
                refine ⟨frm :: offs, ?_, Or.inr rfl, ?_⟩
                · rw [pairEvents_cons]
                  simp [h1]
                · rw [List.chain'_cons']
                  refine ⟨?_, h3⟩
                  intro y hy
                  rcases h2 with h2 | h2
                  · subst h2; simp at hy
                  · rw [h2] at hy
                    exact Or.inr (Option.mem_some_iff.mp hy).symm

/-- C6: within one `CrawlAll` invocation the trace splits into
persist/request pairs at a list of cursor offsets that starts at the
persisted `last_from` (or 0), never decreases, and only ever advances by
the page size; in particular every page request at offset `f` is
immediately preceded by the best-effort persistence of `last_from = f`. -/
theorem crawl_cursor_spec (pageSizeCfg : Nat) (resp : Nat → PageResp)
    (done : Nat → Bool) (cfg : Option (List (String × Json))) (fuel : Nat) :
    ∃ offs : List Int,
      (CrawlAll pageSizeCfg resp done cfg fuel).1 = pairEvents offs ∧
      (offs = [] ∨ offs.head? = some ((parseLastFrom cfg).getD 0)) ∧
      List.Chain'
        (fun a b => b = a ∨ b = a + ((if pageSizeCfg = 0 then 120 else pageSizeCfg : Nat) : Int))
        offs ∧
      List.Chain' (· ≤ ·) offs ∧
      (∀ (j : Nat) (f : Int),
        (CrawlAll pageSizeCfg resp done cfg fuel).1[j]? = some (.request f) →
        1 ≤ j ∧
        (CrawlAll pageSizeCfg resp done cfg fuel).1[j - 1]? = some (.persistFrom f)) := by
  obtain ⟨offs, h1, h2, h3⟩ :=
    crawlLoop_trace_shape (if pageSizeCfg = 0 then 120 else pageSizeCfg) resp done fuel 0
      ((parseLastFrom cfg).getD 0) 0 ((parseLastFrom cfg).getD 0)
  have hca : (CrawlAll pageSizeCfg resp done cfg fuel).1 =
      (crawlLoop (if pageSizeCfg = 0 then 120 else pageSizeCfg) resp done 0
        ((parseLastFrom cfg).getD 0) 0 ((parseLastFrom cfg).getD 0) fuel).1 := rfl
  refine ⟨offs, hca ▸ h1, h2, h3, ?_, ?_⟩
  · refine List.Chain'.imp ?_ h3
    intro a b hab
    rcases hab with hab | hab
    · exact le_of_eq hab.symm
    · rw [hab]
      exact le_add_of_nonneg_right (Int.natCast_nonneg _)
  · intro j fv hj
    rw [hca, h1] at hj
    obtain ⟨hj1, hj2⟩ := pairEvents_request_preceded offs j fv hj
    refine ⟨hj1, ?_⟩
    rw [hca, h1]
    exact hj2

/-- Upstream oracle for the C6 witness: 250 total records served in pages
of 100, 100 and 50. -/
def respExample : Nat → PageResp :=
  fun i => if i = 0 then .page 250 100 else if i = 1 then .page 250 100 else .page 250 50

/-- Witness for C6 at concrete input: a fresh crawl with page size 100 over
250 records produces a pair-shaped trace with non-decreasing offsets
starting at 0 (concretely 0, 100, 200). -/
theorem crawl_cursor_spec_witness :
    ∃ offs : List Int,
      (CrawlAll 100 respExample noCancel none 10).1 = pairEvents offs ∧
      (offs = [] ∨ offs.head? = some ((parseLastFrom none).getD 0)) ∧
      List.Chain' (fun a b => b = a ∨ b = a + ((if 100 = 0 then 120 else 100 : Nat) : Int)) offs ∧
      List.Chain' (· ≤ ·) offs ∧
      (∀ (j : Nat) (f : Int),
        (CrawlAll 100 respExample noCancel none 10).1[j]? = some (.request f) →
        1 ≤ j ∧
        (CrawlAll 100 respExample noCancel none 10).1[j - 1]? = some (.persistFrom f)) :=
  crawl_cursor_spec 100 respExample noCancel none 10

end GoCrawler
